import Mathlib

/-!
Verification of the LM Studio embedding adapter (`src/lmstudio.ts`).

We shallow-embed the adapter in Lean: JavaScript values are modelled by the
mutual inductive `JsVal` (arrays and objects carry their own list types so
that all recursions are structural and concrete instances reduce), machine
numbers by `Int`, fallible operations by `Except`, and the two network
endpoints (`GET /v1/models`, `POST /v1/embeddings`) by oracle functions
supplied as parameters.  Mutable module/instance state (the model-catalog
cache, the caller's model configuration object, the debounced-save hook and
the network-call counter) is threaded explicitly through a state record `St`.
-/

namespace LmStudio

mutual
/-- A JavaScript value, restricted to the shapes the adapter manipulates.
Numbers are modelled as integers. -/
inductive JsVal where
  | str (s : String)
  | num (n : Int)
  | bool (b : Bool)
  | null
  | undefined
  | arr (elems : JsArrVal)
  | obj (fields : JsObjVal)

/-- The element list of a JavaScript array value. -/
inductive JsArrVal where
  | nil
  | cons (head : JsVal) (tail : JsArrVal)

/-- The ordered field list of a JavaScript object value. -/
inductive JsObjVal where
  | nil
  | cons (key : String) (val : JsVal) (tail : JsObjVal)
end

/-- View a JS array's elements as a Lean list. -/
def JsArrVal.toList : JsArrVal → List JsVal
  | .nil => []
  | .cons x rest => x :: rest.toList

/-- Build a JS array value's element list from a Lean list. -/
def JsArrVal.ofList : List JsVal → JsArrVal
  | [] => .nil
  | x :: rest => .cons x (JsArrVal.ofList rest)

/-- View a JS object's fields as a Lean association list. -/
def JsObjVal.toList : JsObjVal → List (String × JsVal)
  | .nil => []
  | .cons k v rest => (k, v) :: rest.toList

/-- Build a JS object's field list from a Lean association list. -/
def JsObjVal.ofList : List (String × JsVal) → JsObjVal
  | [] => .nil
  | (k, v) :: rest => .cons k v (JsObjVal.ofList rest)

/-- Array value from a Lean list of elements. -/
def jsArr (xs : List JsVal) : JsVal := .arr (JsArrVal.ofList xs)

/-- Object value from a Lean association list of fields. -/
def jsObj (fs : List (String × JsVal)) : JsVal := .obj (JsObjVal.ofList fs)

/-- Association-list lookup for object fields. -/
def lookupField : List (String × JsVal) → String → Option JsVal
  | [], _ => none
  | (k, v) :: rest, key => if k = key then some v else lookupField rest key

/-- In-place overwrite / append of an object field, preserving insertion order
(JavaScript object semantics for string keys). -/
def upsert : List (String × JsVal) → String → JsVal → List (String × JsVal)
  | [], k, v => [(k, v)]
  | (k', v') :: rest, k, v =>
      if k' = k then (k, v) :: rest else (k', v') :: upsert rest k v

/-- `item?.field`: property access with optional chaining.  Every non-object
value (including strings and numbers, whose built-in properties the adapter
never reads) yields `undefined`. -/
def JsVal.getField : JsVal → String → JsVal
  | .obj fs, key => (lookupField fs.toList key).getD .undefined
  | _, _ => .undefined

/-- `obj.field = v`, as a functional update; a no-op on non-objects. -/
def JsVal.setField : JsVal → String → JsVal → JsVal
  | .obj fs, k, v => jsObj (upsert fs.toList k v)
  | other, _, _ => other

/-- Is the value `null` or `undefined` (the values skipped by `??`)? -/
def JsVal.isNullish : JsVal → Bool
  | .null => true
  | .undefined => true
  | _ => false

/-- The `??` (nullish-coalescing) operator. -/
def jsCoalesce (a b : JsVal) : JsVal := if a.isNullish then b else a

/-- `s.trim()`: strip leading and trailing whitespace (computable by direct
structural recursion over the character list, so concrete instances reduce). -/
def jsTrim (s : String) : String :=
  String.mk
    (((s.data.dropWhile Char.isWhitespace).reverse.dropWhile
      Char.isWhitespace).reverse)

/-- JavaScript truthiness. -/
def jsTruthy : JsVal → Bool
  | .str s => s ≠ ""
  | .num n => n ≠ 0
  | .bool b => b
  | .null => false
  | .undefined => false
  | .arr _ => true
  | .obj _ => true

mutual
/-- `String(v)` conversion. -/
def jsToString : JsVal → String
  | .str s => s
  | .num n => toString n
  | .bool b => cond b "true" "false"
  | .null => "null"
  | .undefined => "undefined"
  | .obj _ => "[object Object]"
  | .arr xs => jsArrToString xs

/-- `Array.prototype.toString`: elements joined by ","; null and undefined
elements join as the empty string. -/
def jsArrToString : JsArrVal → String
  | .nil => ""
  | .cons x .nil => if x.isNullish then "" else jsToString x
  | .cons x rest =>
      (if x.isNullish then "" else jsToString x) ++ "," ++ jsArrToString rest
end

/-- `Number(v)` conversion; `none` models `NaN`. -/
def jsToNumber : JsVal → Option Int
  | .num n => some n
  | .bool b => some (cond b 1 0)
  | .null => some 0
  | .undefined => none
  | .str s => let t := jsTrim s; if t = "" then some 0 else t.toInt?
  | .arr xs =>
      let t := jsTrim (jsArrToString xs)
      if t = "" then some 0 else t.toInt?
  | .obj _ => none

/-- Source `coerceToText` (src/lmstudio.ts:84-97): a string item is used
as-is; otherwise the fields `embed_input`, `text`, `content`, `input`, then
`data.embed_input`, `data.text`, `data.content` are coalesced with `??` and
the result is used when it is a string, else "". -/
def coerceToText (item : JsVal) : String :=
  match item with
  | .str s => s
  | _ =>
    let d := item.getField "data"
    let candidate :=
      jsCoalesce (item.getField "embed_input")
        (jsCoalesce (item.getField "text")
          (jsCoalesce (item.getField "content")
            (jsCoalesce (item.getField "input")
              (jsCoalesce (d.getField "embed_input")
                (jsCoalesce (d.getField "text")
                  (jsCoalesce (d.getField "content") .null))))))
    match candidate with
    | .str s => s
    | _ => ""

/-- First value in the list that is not null/undefined (`null` if none). -/
def firstNonNullish : List JsVal → JsVal
  | [] => .null
  | v :: rest => if v.isNullish then firstNonNullish rest else v

/-- Spec-style restatement of the text-extraction policy, for comparison with
the source function `coerceToText`: probe a fixed priority list of fields,
take the FIRST non-nullish one, and use it only when it is a string. -/
def coerceToTextSpec (item : JsVal) : String :=
  match item with
  | .str s => s
  | _ =>
    let d := item.getField "data"
    match firstNonNullish
        [item.getField "embed_input", item.getField "text",
         item.getField "content", item.getField "input",
         d.getField "embed_input", d.getField "text", d.getField "content"] with
    | .str s => s
    | _ => ""

/-- Source `normalizeBatchInputs` element step: coerce, trim, substitute a
single space for the empty string. -/
def normalizeOne (item : JsVal) : String :=
  let trimmed := jsTrim (coerceToText item)
  if trimmed = "" then " " else trimmed

/-- Source `normalizeBatchInputs` (src/lmstudio.ts:99-105). -/
def normalizeBatchInputs (inputs : List JsVal) : List String :=
  inputs.map normalizeOne

/-- Source `estimateTokens` (src/lmstudio.ts:143-146):
`Math.max(1, Math.ceil(len / 4))`, with `⌈len/4⌉ = (len+3)/4` on naturals. -/
def estimateTokens (text : String) : Nat :=
  max 1 ((text.length + 3) / 4)

/-- Source `chunk` (src/lmstudio.ts:137-141), written with explicit fuel
(the JavaScript loop terminates exactly when the chunk size is positive;
the fuel `items.length` suffices in that case). -/
def chunkGo {α : Type} : Nat → List α → Nat → List (List α)
  | 0, _, _ => []
  | _, [], _ => []
  | fuel + 1, l, size => l.take size :: chunkGo fuel (l.drop size) size

/-- Partition a list into contiguous groups of at most `size`. -/
def chunk {α : Type} (items : List α) (size : Nat) : List (List α) :=
  chunkGo items.length items size

/-- The module-level settings the adapter reads (`maxTokens`, `batchSize`);
base URL and timeout are absorbed into the network oracles. -/
structure Settings where
  maxTokens : Int
  batchSize : Int

/-- The model catalog: an insertion-ordered map from model id to its
`ProviderModelConfig` (as a JS object), i.e. the module-level `cachedModels`. -/
abbrev Catalog := List (String × JsVal)

/-- The mutable state the adapter touches: the caller's model-configuration
object, the module-level catalog cache and its timestamp, plus
instrumentation counting `/v1/models` network calls and invocations of the
caller's `debounce_save` hook. -/
structure St where
  model : JsVal
  cachedModels : Catalog
  lastFetchedAt : Int
  netCalls : Nat
  saves : Nat

/-- Oracle for `GET /v1/models` (via `fetchJson`): the response to the n-th
models request, or the error `fetchJson` throws (timeout, non-2xx,
JSON parse failure). -/
abbrev ModelsOracle := Nat → Except String JsVal

/-- The `input` field of a `POST /v1/embeddings` request body: a single
string or an array of strings. -/
inductive EmbedInput where
  | single (text : String)
  | batch (texts : List String)

/-- A `POST /v1/embeddings` request, as issued by `createEmbeddings`. -/
structure EmbedReq where
  model : String
  input : EmbedInput

/-- Oracle for `POST /v1/embeddings`: the parsed JSON response for a request
or the error `fetchJson` throws. -/
abbrev EmbedOracle := EmbedReq → Except String JsVal

/-- The `ProviderModelConfig` entry `listModels` builds for a model id,
as a JS object. -/
def configJs (s : Settings) (id : String) : JsVal :=
  jsObj [("id", .str id), ("name", .str id), ("model_key", .str id),
         ("model", .str id),
         ("description", .str "LM Studio local embedding model"),
         ("max_tokens", .num s.maxTokens), ("batch_size", .num s.batchSize),
         ("use_gpu", .bool false), ("adapter", .str "lmstudio")]

/-- The parsing loop of `listModels` (src/lmstudio.ts:60-77): read `data.data`
when it is an array, key each entry by `String(m?.id ?? "").trim()`, and
silently skip entries with an empty id. -/
def parseModels (s : Settings) (data : JsVal) : Catalog :=
  let models : List JsVal :=
    match data.getField "data" with
    | .arr xs => xs.toList
    | _ => []
  models.foldl (fun acc m =>
    let id := jsTrim (jsToString (jsCoalesce (m.getField "id") (.str "")))
    if id = "" then acc else upsert acc id (configJs s id)) []

/-- Source `listModels` (src/lmstudio.ts:55-82): return the cached snapshot
when not refreshing, it is younger than 15 s and non-empty; otherwise fetch,
and replace the cache and stamp the time only on success. -/
def listModels (mo : ModelsOracle) (s : Settings) (now : Int) (refresh : Bool)
    (st : St) : St × Except String Catalog :=
  if refresh = false ∧ now - st.lastFetchedAt < 15000 ∧
      st.cachedModels.isEmpty = false then
    (st, .ok st.cachedModels)
  else
    match mo st.netCalls with
    | .error e => ({ st with netCalls := st.netCalls + 1 }, .error e)
    | .ok data =>
        let next := parseModels s data
        ({ st with cachedModels := next, lastFetchedAt := now,
                   netCalls := st.netCalls + 1 }, .ok next)

/-- `Object.keys(v).length` for the shapes that can reach it. -/
def jsKeysLength : JsVal → Nat
  | .obj fs => fs.toList.length
  | .arr xs => xs.toList.length
  | .str s => s.length
  | _ => 0

/-- Source `coerceRefreshArg` (src/lmstudio.ts:162-166). -/
def coerceRefreshArg : JsVal → Bool
  | .bool b => b
  | .obj fs =>
      match lookupField fs.toList "refresh" with
      | some v => jsTruthy v
      | none => false
  | _ => false

/-- A catalog as the JS object stored into `model.data.provider_models`. -/
def catalogToJs (c : Catalog) : JsVal := jsObj c

/-- `model.data.field = v`: functional update of a field of the nested
`data` object (a no-op unless `model` and `model.data` are objects). -/
def setDataField (model : JsVal) (k : String) (v : JsVal) : JsVal :=
  model.setField "data" ((model.getField "data").setField k v)

/-- Source `get_models` (src/lmstudio.ts:168-175): list models, then seed
`model.data.provider_models` when it is falsy or empty. -/
def get_models (mo : ModelsOracle) (s : Settings) (now : Int)
    (refreshOrOpts : JsVal) (st : St) : St × Except String Catalog :=
  let refresh := coerceRefreshArg refreshOrOpts
  match listModels mo s now refresh st with
  | (st1, .error e) => (st1, .error e)
  | (st1, .ok models) =>
      let d := st1.model.getField "data"
      let pm := d.getField "provider_models"
      if jsTruthy d = true ∧ (jsTruthy pm = false ∨ jsKeysLength pm = 0) then
        ({ st1 with
            model := setDataField st1.model "provider_models" (catalogToJs models) },
         .ok models)
      else (st1, .ok models)

/-- The `??` chain of `ensureModelKey` selecting a configured model key. -/
def candidateModelKey (model : JsVal) : JsVal :=
  let d := model.getField "data"
  jsCoalesce (d.getField "model_key")
    (jsCoalesce (d.getField "model")
      (jsCoalesce (d.getField "model_id")
        (jsCoalesce (d.getField "id")
          (jsCoalesce (model.getField "model_key")
            (jsCoalesce (model.getField "id") .null)))))

/-- `typeof candidate === "string" ? candidate.trim() : ""`. -/
def keyOf (model : JsVal) : String :=
  match candidateModelKey model with
  | .str s => jsTrim s
  | _ => ""

/-- The error `ensureModelKey` throws when the catalog is empty even after a
forced refresh. -/
def noModelsMsg : String :=
  "LM Studio: no models available (GET /v1/models returned empty)"

/-- Source `ensureModelKey` (src/lmstudio.ts:183-206): use a configured key
if present; otherwise force a catalog refresh, adopt the first catalog entry,
persist it onto `model.data.model_key` / `model.data.model` (when `model.data`
is truthy) and invoke the debounced save; fail when the catalog stays empty. -/
def ensureModelKey (mo : ModelsOracle) (s : Settings) (now : Int) (st : St) :
    St × Except String String :=
  let key := keyOf st.model
  if key ≠ "" then (st, .ok key)
  else
    match get_models mo s now (.bool true) st with
    | (st1, .error e) => (st1, .error e)
    | (st1, .ok _) =>
      let fallback :=
        match st1.cachedModels.head? with
        | some kc => jsTrim kc.1
        | none => ""
      if fallback = "" then (st1, .error noModelsMsg)
      else if jsTruthy (st1.model.getField "data") then
        ({ st1 with
            model := setDataField
              (setDataField st1.model "model_key" (.str fallback))
              "model" (.str fallback),
            saves := st1.saves + 1 }, .ok fallback)
      else (st1, .ok fallback)

/-- `Number.isFinite(v) && v > 0` on the raw (uncoerced) value. -/
def isFinitePosNum : JsVal → Bool
  | .num n => decide (0 < n)
  | _ => false

/-- `Number.isFinite(v)` on the raw (uncoerced) value. -/
def isFiniteNum : JsVal → Bool
  | .num _ => true
  | _ => false

/-- Source `ensureBatchSize` (src/lmstudio.ts:219-233): resolve the effective
batch size (the coerced configured value when finite and positive, else the
settings default), write it back to `model.data.batch_size` and
`model.data.max_batch_size` when those are not finite positive numbers, and
invoke the debounced save.  `get batch_size` is exactly this function. -/
def effectiveBatchSize (s : Settings) (st : St) : Int :=
  match jsToNumber ((st.model.getField "data").getField "batch_size") with
  | some c => if 0 < c then c else s.batchSize
  | none => s.batchSize

/-- The write-back and debounced-save part of `ensureBatchSize`. -/
def ensureBatchSize (s : Settings) (st : St) : St × Int :=
  let d := st.model.getField "data"
  let valid : Int := effectiveBatchSize s st
  if jsTruthy d then
    let m1 :=
      if isFinitePosNum (d.getField "batch_size") then st.model
      else setDataField st.model "batch_size" (.num valid)
    let d1 := m1.getField "data"
    let m2 :=
      if isFinitePosNum (d1.getField "max_batch_size") then m1
      else setDataField m1 "max_batch_size" (.num valid)
    ({ st with model := m2, saves := st.saves + 1 }, valid)
  else (st, valid)

/-- Source `padToLength` (src/lmstudio.ts:208-217): truncate to the target
length, or pad with zero vectors of the configured/inferred/default (1536)
dimensionality. -/
def padToLength (model : JsVal) (vectors : List (List JsVal))
    (targetLength : Nat) : List (List JsVal) :=
  if targetLength ≤ vectors.length then vectors.take targetLength
  else
    let dims : Int :=
      match (model.getField "data").getField "dims" with
      | .num n => n
      | _ =>
        match vectors.head? with
        | some v => Int.ofNat v.length
        | none => 1536
    vectors ++ List.replicate (targetLength - vectors.length)
      (List.replicate dims.toNat (JsVal.num 0))

/-- Source `extractEmbeddings` (src/lmstudio.ts:119-128): collect the
`embedding` field of every entry of `data.data`, failing at the first entry
whose `embedding` is not an array. -/
def extractEmbeddings (data : JsVal) : Except String (List (List JsVal)) :=
  let items : List JsVal :=
    match data.getField "data" with
    | .arr xs => xs.toList
    | _ => []
  extractLoop items
where
  extractLoop : List JsVal → Except String (List (List JsVal))
  | [] => .ok []
  | it :: rest =>
    match it.getField "embedding" with
    | .arr emb =>
      match extractLoop rest with
      | .ok out => .ok (emb.toList :: out)
      | .error e => .error e
    | _ => .error "LM Studio: invalid embedding response"

/-- Source `embedOne` (src/lmstudio.ts:130-135): one single-string request;
fails when the response carries no first embedding (an empty vector, being a
truthy array, is accepted). -/
def embedOne (eo : EmbedOracle) (modelKey : String) (text : String) :
    Except String (List JsVal) :=
  match eo ⟨modelKey, .single text⟩ with
  | .error e => .error e
  | .ok data =>
    match extractEmbeddings data with
    | .error e => .error e
    | .ok embeddings =>
      match embeddings.head? with
      | some v => .ok v
      | none => .error "LM Studio: empty embedding response"

/-- The per-item recovery loop (`for (const one of group) recovered.push(await
embedOne(...))`): sequential, stopping at the first failure.  Also returns
the trace of requests issued. -/
def embedEach (eo : EmbedOracle) (modelKey : String) :
    List String → Except String (List (List JsVal)) × List EmbedReq
  | [] => (.ok [], [])
  | t :: ts =>
    match embedOne eo modelKey t with
    | .error e => (.error e, [⟨modelKey, .single t⟩])
    | .ok v =>
      match embedEach eo modelKey ts with
      | (.ok vs, tr) => (.ok (v :: vs), ⟨modelKey, .single t⟩ :: tr)
      | (.error e, tr) => (.error e, ⟨modelKey, .single t⟩ :: tr)

/-- The body of the `try` block of `embed_batch`'s group loop
(src/lmstudio.ts:287-306): one batch request; on a count mismatch, discard
the batch result and re-embed each item individually. -/
def tryBatchGroup (eo : EmbedOracle) (modelKey : String) (group : List String) :
    Except String (List (List JsVal)) × List EmbedReq :=
  let breq : EmbedReq := ⟨modelKey, .batch group⟩
  match eo breq with
  | .error e => (.error e, [breq])
  | .ok data =>
    match extractEmbeddings data with
    | .error e => (.error e, [breq])
    | .ok embeddings =>
      if embeddings.length ≠ group.length then
        match embedEach eo modelKey group with
        | (r, tr) => (r, breq :: tr)
      else (.ok (embeddings.take group.length), [breq])

/-- One iteration of `embed_batch`'s group loop with its `catch` fallback
(src/lmstudio.ts:286-312): any failure inside the `try` block triggers one
round of per-item embedding whose own failure is not caught. -/
def processGroup (eo : EmbedOracle) (modelKey : String) (group : List String) :
    Except String (List (List JsVal)) × List EmbedReq :=
  match tryBatchGroup eo modelKey group with
  | (.ok vs, tr) => (.ok vs, tr)
  | (.error _, tr) =>
    match embedEach eo modelKey group with
    | (r, tr2) => (r, tr ++ tr2)

/-- The per-group dims inference (src/lmstudio.ts:314-319): persist the
length of the first vector produced so far onto `model.data.dims` when not
already a finite number. -/
def persistDims (st : St) (vectors : List (List JsVal)) : St :=
  match vectors.head? with
  | none => st
  | some v0 =>
    let d := st.model.getField "data"
    if jsTruthy d = true ∧ isFiniteNum (d.getField "dims") = false then
      { st with model := setDataField st.model "dims" (.num (Int.ofNat v0.length)),
                saves := st.saves + 1 }
    else st

/-- The sequential loop of `embed_batch` over groups, accumulating vectors,
threading the dims persistence, and propagating the first uncaught failure. -/
def runGroups (eo : EmbedOracle) (modelKey : String) :
    St → List (List JsVal) → List (List String) →
    St × Except String (List (List JsVal)) × List EmbedReq
  | st, acc, [] => (st, .ok acc, [])
  | st, acc, g :: gs =>
    match processGroup eo modelKey g with
    | (.error e, tr) => (st, .error e, tr)
    | (.ok vs, tr) =>
      let acc2 := acc ++ vs
      let st2 := persistDims st acc2
      match runGroups eo modelKey st2 acc2 gs with
      | (st3, r, tr2) => (st3, r, tr ++ tr2)

/-- First pass of `coerceBatchInputsFromArgs`: the first non-empty array
argument. -/
def argsLoop1 : List JsVal → Option (List JsVal)
  | [] => none
  | .arr xs :: rest =>
      if xs.toList.isEmpty then argsLoop1 rest else some xs.toList
  | _ :: rest => argsLoop1 rest

/-- `typeof a === "object" && a` (arrays included, `null` excluded). -/
def isObjectLike : JsVal → Bool
  | .obj _ => true
  | .arr _ => true
  | _ => false

/-- The `??` chain probing an object argument for a nested array of inputs. -/
def objArrCandidate (a : JsVal) : JsVal :=
  let d := a.getField "data"
  jsCoalesce (a.getField "texts")
    (jsCoalesce (a.getField "inputs")
      (jsCoalesce (a.getField "items")
        (jsCoalesce (d.getField "texts")
          (jsCoalesce (d.getField "inputs")
            (jsCoalesce (d.getField "items") .null)))))

/-- Second pass: the first object-like argument carrying a non-empty array
under one of the conventional field names. -/
def argsLoop2 : List JsVal → Option (List JsVal)
  | [] => none
  | a :: rest =>
    if isObjectLike a then
      match objArrCandidate a with
      | .arr c => if c.toList.isEmpty then argsLoop2 rest else some c.toList
      | _ => argsLoop2 rest
    else argsLoop2 rest

/-- Third pass: the first array argument, possibly empty. -/
def argsLoop3 : List JsVal → List JsVal
  | [] => []
  | .arr xs :: _ => xs.toList
  | _ :: rest => argsLoop3 rest

/-- Source `coerceBatchInputsFromArgs` (src/lmstudio.ts:257-271). -/
def coerceBatchInputsFromArgs (args : List JsVal) : List JsVal :=
  match argsLoop1 args with
  | some xs => xs
  | none =>
    match argsLoop2 args with
    | some xs => xs
    | none => argsLoop3 args

/-- One `EmbeddingResult`: a vector plus the estimated token count. -/
structure EmbRes where
  vec : List JsVal
  tokens : Nat

/-- The value `embed` / `embed_query` return: either a real result or the
literal `\x7b vec: [] \x7d` default used when the batch yields nothing. -/
inductive EmbedOut where
  | res (r : EmbRes)
  | emptyVec

/-- Source `embed_batch` (src/lmstudio.ts:273-324).  Returns the final state,
the result (or first uncaught error), and the trace of `/v1/embeddings`
requests issued. -/
def embed_batch (mo : ModelsOracle) (eo : EmbedOracle) (s : Settings)
    (now : Int) (st : St) (args : List JsVal) :
    St × Except String (List EmbRes) × List EmbedReq :=
  let coerced := coerceBatchInputsFromArgs args
  if coerced.length = 0 then (st, .ok [], [])
  else
    match ensureBatchSize s st with
    | (st1, batchSize) =>
      match ensureModelKey mo s now st1 with
      | (st2, .error e) => (st2, .error e, [])
      | (st2, .ok modelKey) =>
        let normalized := normalizeBatchInputs coerced
        if normalized.length = 0 then (st2, .ok [], [])
        else
          match runGroups eo modelKey st2 [] (chunk normalized batchSize.toNat) with
          | (st3, .error e, tr) => (st3, .error e, tr)
          | (st3, .ok vectors, tr) =>
            let padded := padToLength st3.model vectors normalized.length
            (st3,
             .ok (padded.enum.map fun p =>
               { vec := p.2, tokens := estimateTokens (normalized.getD p.1 "") }),
             tr)

/-- `Array.isArray(v)`. -/
def isArray : JsVal → Bool
  | .arr _ => true
  | _ => false

/-- Source `embed` (src/lmstudio.ts:326-330): wrap a non-array argument into
a singleton list, call `embed_batch`, and return the first result or the
empty-vector default. -/
def embed (mo : ModelsOracle) (eo : EmbedOracle) (s : Settings) (now : Int)
    (st : St) (texts : JsVal) : St × Except String EmbedOut × List EmbedReq :=
  let inputs : List JsVal :=
    match texts with
    | .arr xs => xs.toList
    | t => [t]
  match embed_batch mo eo s now st [jsArr inputs] with
  | (st1, .error e, tr) => (st1, .error e, tr)
  | (st1, .ok items, tr) =>
    match items.head? with
    | some r => (st1, .ok (.res r), tr)
    | none => (st1, .ok .emptyVec, tr)

/-! ### Concrete fixtures used to evaluate the definitions -/

/-- Fixture settings: the shipped defaults (maxTokens 512, batchSize 16). -/
def settingsW : Settings := ⟨512, 16⟩

/-- Fixture model object with a configured model key. -/
def modelKeyedW : JsVal := jsObj [("data", jsObj [("model_key", .str "m1")])]

/-- Fixture model object with an empty configuration. -/
def modelBareW : JsVal := jsObj [("data", jsObj [])]

/-- Fixture state around `modelKeyedW`, cold catalog cache. -/
def stKeyedW : St := ⟨modelKeyedW, [], 0, 0, 0⟩

/-- Fixture state around `modelBareW`, cold catalog cache. -/
def stBareW : St := ⟨modelBareW, [], 0, 0, 0⟩

/-- Build a `/v1/embeddings` response JSON carrying the given vectors. -/
def embResponse (vecs : List (List JsVal)) : JsVal :=
  jsObj [("data", jsArr (vecs.map fun v => jsObj [("embedding", jsArr v)]))]

/-- A distinguishable mock vector for a text: one component, its length. -/
def vecFor (t : String) : List JsVal := [.num (Int.ofNat t.length)]

/-- Embeddings oracle answering every request correctly. -/
def eoGoodW : EmbedOracle
  | ⟨_, .single t⟩ => .ok (embResponse [vecFor t])
  | ⟨_, .batch ts⟩ => .ok (embResponse (ts.map vecFor))

/-- Embeddings oracle whose batched answers carry a wrong vector count. -/
def eoMismatchW : EmbedOracle
  | ⟨_, .single t⟩ => .ok (embResponse [vecFor t])
  | ⟨_, .batch _⟩ => .ok (embResponse [])

/-- Embeddings oracle failing batched requests, answering single ones. -/
def eoBatchFailW : EmbedOracle
  | ⟨_, .single t⟩ => .ok (embResponse [vecFor t])
  | ⟨_, .batch _⟩ => .error "batch boom"

/-- Embeddings oracle failing every request. -/
def eoAllFailW : EmbedOracle := fun _ => .error "single boom"

/-- Models response listing the single model id "m1". -/
def modelsJsonW : JsVal := jsObj [("data", jsArr [jsObj [("id", .str "m1")]])]

/-- Models oracle returning `modelsJsonW` on every call. -/
def moW : ModelsOracle := fun _ => .ok modelsJsonW

/-- Models oracle returning an empty model list on every call. -/
def moEmptyW : ModelsOracle := fun _ => .ok (jsObj [("data", jsArr [])])

/-- Models oracle failing on every call. -/
def moErrW : ModelsOracle := fun _ => .error "models boom"

/-- The catalog parsed from `modelsJsonW`. -/
def catalogW : Catalog := [("m1", configJs settingsW "m1")]

/-- The state after a first cold `listModels(false)` call against `moW`
at time 1000000, starting from `stBareW`. -/
def stAfterFirstW : St :=
  { model := modelBareW, cachedModels := catalogW,
    lastFetchedAt := 1000000, netCalls := 1, saves := 0 }

/-! ### Helper lemmas -/

theorem arrToList_ofList (xs : List JsVal) :
    (JsArrVal.ofList xs).toList = xs := by
  induction xs with
  | nil => rfl
  | cons x rest ih => simp [JsArrVal.ofList, JsArrVal.toList, ih]

theorem objToList_ofList (fs : List (String × JsVal)) :
    (JsObjVal.ofList fs).toList = fs := by
  induction fs with
  | nil => rfl
  | cons kv rest ih => simp [JsObjVal.ofList, JsObjVal.toList, ih]

theorem getField_jsObj (fs : List (String × JsVal)) (key : String) :
    (jsObj fs).getField key = (lookupField fs key).getD .undefined := by
  simp [jsObj, JsVal.getField, objToList_ofList]

theorem lookupField_upsert_self (fs : List (String × JsVal)) (k : String)
    (v : JsVal) : lookupField (upsert fs k v) k = some v := by
  induction fs with
  | nil => simp [upsert, lookupField]
  | cons kv rest ih =>
      by_cases h : kv.1 = k
      · simp [upsert, h, lookupField]
      · simp [upsert, h, lookupField, ih]

theorem lookupField_upsert_ne (fs : List (String × JsVal)) (k key : String)
    (v : JsVal) (h : k ≠ key) :
    lookupField (upsert fs k v) key = lookupField fs key := by
  induction fs with
  | nil => simp [upsert, lookupField, h]
  | cons kv rest ih =>
      by_cases h1 : kv.1 = k
      · simp [upsert, h1, lookupField, h, Ne.symm h]
      · simp [upsert, h1, lookupField, ih]

theorem setField_obj (fs : JsObjVal) (k : String) (v : JsVal) :
    (JsVal.obj fs).setField k v = jsObj (upsert fs.toList k v) := rfl

theorem getField_setField_self (fs : JsObjVal) (k : String) (v : JsVal) :
    ((JsVal.obj fs).setField k v).getField k = v := by
  rw [setField_obj, getField_jsObj, lookupField_upsert_self]
  rfl

theorem getField_setField_ne (fs : JsObjVal) (k key : String) (v : JsVal)
    (h : k ≠ key) :
    ((JsVal.obj fs).setField k v).getField key = (JsVal.obj fs).getField key := by
  rw [setField_obj, getField_jsObj, lookupField_upsert_ne _ _ _ _ h]
  rfl

theorem setDataField_getData (mfs dfs : JsObjVal) (k : String) (v : JsVal)
    (hd : (JsVal.obj mfs).getField "data" = .obj dfs) :
    (setDataField (JsVal.obj mfs) k v).getField "data" =
      (JsVal.obj dfs).setField k v := by
  unfold setDataField
  rw [hd, getField_setField_self]

theorem padToLength_length (model : JsVal) (vectors : List (List JsVal))
    (t : Nat) : (padToLength model vectors t).length = t := by
  unfold padToLength
  split
  · rename_i h
    simp [List.length_take]
    omega
  · rename_i h
    simp
    omega

theorem coerce_single_arr (xs : List JsVal) :
    coerceBatchInputsFromArgs [jsArr xs] = xs := by
  cases xs with
  | nil => rfl
  | cons x rest =>
      simp [coerceBatchInputsFromArgs, argsLoop1, jsArr, arrToList_ofList]

theorem ensureBatchSize_snd (s : Settings) (st : St) :
    (ensureBatchSize s st).2 = effectiveBatchSize s st := by
  unfold ensureBatchSize
  by_cases h : jsTruthy (st.model.getField "data") = true <;> simp [h]

theorem effectiveBatchSize_pos (s : Settings) (st : St) (h : 1 ≤ s.batchSize) :
    1 ≤ effectiveBatchSize s st := by
  unfold effectiveBatchSize
  rcases jsToNumber ((st.model.getField "data").getField "batch_size") with _ | c
  · exact h
  · simp only
    split
    · omega
    · exact h

theorem ensureBatchSize_pos (s : Settings) (st : St) (h : 1 ≤ s.batchSize) :
    1 ≤ (ensureBatchSize s st).2 := by
  rw [ensureBatchSize_snd]
  exact effectiveBatchSize_pos s st h

theorem chunkGo_nil {α : Type} (fuel size : Nat) :
    chunkGo fuel ([] : List α) size = [] := by
  cases fuel <;> rfl

theorem chunk_single {α : Type} (l : List α) (size : Nat) (h1 : l ≠ [])
    (h2 : l.length ≤ size) : chunk l size = [l] := by
  unfold chunk
  cases l with
  | nil => simp at h1
  | cons x rest =>
      simp only [List.length_cons, chunkGo]
      rw [List.take_of_length_le (by simpa using h2),
          List.drop_eq_nil_of_le (by simpa using h2), chunkGo_nil]

theorem embedEach_all_ok (eo : EmbedOracle) (mk : String)
    (f : String → List JsVal) (ts : List String)
    (h : ∀ t ∈ ts, embedOne eo mk t = .ok (f t)) :
    embedEach eo mk ts =
      (.ok (ts.map f), ts.map fun t => EmbedReq.mk mk (.single t)) := by
  induction ts with
  | nil => rfl
  | cons t rest ih =>
      have ht : embedOne eo mk t = .ok (f t) := h t (by simp)
      have hrest := ih (fun u hu => h u (by simp [hu]))
      simp [embedEach, ht, hrest]

theorem embedEach_ok_length (eo : EmbedOracle) (mk : String) (ts : List String)
    (vs : List (List JsVal)) (tr : List EmbedReq)
    (h : embedEach eo mk ts = (.ok vs, tr)) : vs.length = ts.length := by
  induction ts generalizing vs tr with
  | nil =>
      simp [embedEach] at h
      simp [← h.1]
  | cons t rest ih =>
      unfold embedEach at h
      cases he : embedOne eo mk t with
      | error e => rw [he] at h; simp at h
      | ok v =>
          rw [he] at h
          cases hr : embedEach eo mk rest with
          | mk r tr2 =>
              cases r with
              | error e => rw [hr] at h; simp at h
              | ok vs2 =>
                  rw [hr] at h
                  simp at h
                  obtain ⟨⟨rfl, rfl⟩⟩ := h
                  simp [ih vs2 tr2 hr]

theorem getField_obj_of (v : JsVal) (k : String) (dfs : JsObjVal)
    (h : v.getField k = .obj dfs) : ∃ mfs, v = .obj mfs := by
  cases v <;> first
    | exact ⟨_, rfl⟩
    | simp [JsVal.getField] at h

theorem chunkGo_join {α : Type} (fuel : Nat) :
    ∀ (l : List α) (size : Nat), 1 ≤ size → l.length ≤ fuel →
      (chunkGo fuel l size).flatten = l := by
  induction fuel with
  | zero =>
      intro l size h1 h2
      have hl : l = [] := List.eq_nil_of_length_eq_zero (Nat.le_zero.mp h2)
      subst hl
      rfl
  | succ fuel ih =>
      intro l size h1 h2
      cases l with
      | nil => rfl
      | cons x rest =>
          simp only [chunkGo, List.flatten_cons]
          rw [ih (List.drop size (x :: rest)) size h1
            (by rw [List.length_drop]; simp at h2 ⊢; omega)]
          exact List.take_append_drop size (x :: rest)

theorem chunk_join {α : Type} (l : List α) (size : Nat) (h : 1 ≤ size) :
    (chunk l size).flatten = l :=
  chunkGo_join l.length l size h le_rfl

theorem extractLoop_embItems (vs : List (List JsVal)) :
    extractEmbeddings.extractLoop
      (vs.map fun v => jsObj [("embedding", jsArr v)]) = .ok vs := by
  induction vs with
  | nil => rfl
  | cons v rest ih =>
      simp only [List.map_cons]
      unfold extractEmbeddings.extractLoop
      rw [show (jsObj [("embedding", jsArr v)]).getField "embedding" =
        JsVal.arr (JsArrVal.ofList v) from rfl]
      simp only [ih, arrToList_ofList]

theorem extractEmbeddings_embResponse (vs : List (List JsVal)) :
    extractEmbeddings (embResponse vs) = .ok vs := by
  unfold extractEmbeddings embResponse
  rw [show (jsObj [("data", jsArr (vs.map fun v =>
      jsObj [("embedding", jsArr v)]))]).getField "data" =
    JsVal.arr (JsArrVal.ofList (vs.map fun v =>
      jsObj [("embedding", jsArr v)])) from rfl]
  simp only [arrToList_ofList]
  exact extractLoop_embItems vs

theorem processGroup_consistent (eo : EmbedOracle) (mkey : String)
    (f : String → List JsVal)
    (hc : ∀ (mk : String) (ts : List String), ∃ data,
        eo ⟨mk, .batch ts⟩ = .ok data ∧
        extractEmbeddings data = .ok (ts.map f))
    (g : List String) :
    processGroup eo mkey g = (.ok (g.map f), [⟨mkey, .batch g⟩]) := by
  obtain ⟨data, hdata, hext⟩ := hc mkey g
  unfold processGroup tryBatchGroup
  simp only [hdata, hext]
  rw [if_neg (by simp)]
  rw [List.take_of_length_le (by simp)]

theorem runGroups_consistent (eo : EmbedOracle) (mkey : String)
    (f : String → List JsVal)
    (hc : ∀ (mk : String) (ts : List String), ∃ data,
        eo ⟨mk, .batch ts⟩ = .ok data ∧
        extractEmbeddings data = .ok (ts.map f)) :
    ∀ (gs : List (List String)) (st : St) (acc : List (List JsVal)),
      ∃ (stY : St) (trY : List EmbedReq),
        runGroups eo mkey st acc gs =
          (stY, .ok (acc ++ ((gs.map fun g => g.map f).flatten)), trY) := by
  intro gs
  induction gs with
  | nil =>
      intro st acc
      exact ⟨st, [], by simp [runGroups]⟩
  | cons g rest ih =>
      intro st acc
      obtain ⟨stY, trY, hrest⟩ := ih (persistDims st (acc ++ g.map f))
        (acc ++ g.map f)
      refine ⟨stY, ⟨mkey, .batch g⟩ :: trY, ?_⟩
      unfold runGroups
      simp only [processGroup_consistent eo mkey f hc g, hrest]
      simp [List.append_assoc]

theorem listModels_ok_cached (mo : ModelsOracle) (s : Settings) (now : Int)
    (refresh : Bool) (st st1 : St) (mods : Catalog)
    (h : listModels mo s now refresh st = (st1, .ok mods)) :
    st1.cachedModels = mods := by
  unfold listModels at h
  split at h
  · simp only [Prod.mk.injEq] at h
    obtain ⟨h1, h2⟩ := h
    subst h1
    exact Except.ok.inj h2
  · cases hmo : mo st.netCalls with
    | error e => rw [hmo] at h; simp at h
    | ok data =>
        rw [hmo] at h
        simp only [Prod.mk.injEq] at h
        obtain ⟨h1, h2⟩ := h
        subst h1
        simpa using Except.ok.inj h2

theorem get_models_true_ok (mo : ModelsOracle) (s : Settings) (now : Int)
    (st : St) (dataJ : JsVal) (hmo : mo st.netCalls = .ok dataJ) :
    ∃ m2 : JsVal,
      get_models mo s now (.bool true) st =
        ({ model := m2, cachedModels := parseModels s dataJ,
           lastFetchedAt := now, netCalls := st.netCalls + 1,
           saves := st.saves }, .ok (parseModels s dataJ)) ∧
      (m2 = st.model ∨
        m2 = setDataField st.model "provider_models"
          (catalogToJs (parseModels s dataJ))) := by
  have hlm : listModels mo s now true st =
      ({ st with cachedModels := parseModels s dataJ, lastFetchedAt := now,
                 netCalls := st.netCalls + 1 }, .ok (parseModels s dataJ)) := by
    unfold listModels
    rw [if_neg (by simp), hmo]
  unfold get_models
  have hra : coerceRefreshArg (.bool true) = true := rfl
  rw [hra]
  simp only [hlm]
  split
  · exact ⟨_, rfl, Or.inr rfl⟩
  · exact ⟨_, rfl, Or.inl rfl⟩

/-! ### Claim theorems -/

/-- C2, counterexample: an item whose only text is under `data.input`
normalizes to "" (not to that text), because `coerceToText` does not probe
`data.input`; and an item whose earlier-priority field `embed_input` holds a
non-string value yields "" (the later string-valued field `text` is not
consulted), because `??` skips only null/undefined. -/
theorem coerceToText_counterexample :
    (coerceToText (jsObj [("data", jsObj [("input", .str "hello")])]) = "" ∧
      "" ≠ "hello") ∧
    (coerceToText (jsObj [("embed_input", .num 42), ("text", .str "hi")]) = "" ∧
      "" ≠ "hi") := by
  refine ⟨⟨rfl, ?_⟩, ⟨rfl, ?_⟩⟩ <;> decide

/-- C2, amended: for every non-string item the normalizer probes, in fixed
priority order, `embed_input`, `text`, `content`, `input`, then
`data.embed_input`, `data.text`, `data.content` (`data.input` is NOT
probed), and uses the first field whose value is non-nullish: if that value
is a string it is used, otherwise the result is "" (later fields are not
consulted).  Consequently an item whose only text is under `data.input`
normalizes to the single-space substitute. -/
theorem coerceToText_first_non_nullish :
    (∀ item : JsVal, coerceToText item = coerceToTextSpec item) ∧
    (∀ s : String,
      normalizeOne (jsObj [("data", jsObj [("input", .str s)])]) = " ") := by
  constructor
  · intro item
    cases item <;> rfl
  · intro s
    rfl

/-- C7: when the catalog refresh actually fetches, a fetch failure propagates
to the caller and leaves the cached snapshot and the last-refreshed timestamp
unchanged (only the network-call count grows); on success the snapshot is
replaced and the refresh time stamped. -/
theorem listModels_failure_preserves_cache (mo : ModelsOracle) (s : Settings)
    (now : Int) (st : St) (refresh : Bool)
    (hfetch : ¬(refresh = false ∧ now - st.lastFetchedAt < 15000 ∧
        st.cachedModels.isEmpty = false)) :
    (∀ e, mo st.netCalls = .error e →
      listModels mo s now refresh st =
        ({ st with netCalls := st.netCalls + 1 }, .error e)) ∧
    (∀ data, mo st.netCalls = .ok data →
      listModels mo s now refresh st =
        ({ st with cachedModels := parseModels s data, lastFetchedAt := now,
                   netCalls := st.netCalls + 1 }, .ok (parseModels s data))) := by
  constructor
  · intro e herr
    unfold listModels
    rw [if_neg hfetch, herr]
  · intro data hok
    unfold listModels
    rw [if_neg hfetch, hok]

/-- C7 witness: a failing refresh at the concrete error oracle leaves the
cache of `stKeyedW` untouched and surfaces the error. -/
theorem listModels_failure_preserves_cache_witness :
    listModels moErrW settingsW 5 true stKeyedW =
      ({ stKeyedW with netCalls := 1 }, .error "models boom") :=
  (listModels_failure_preserves_cache moErrW settingsW 5 stKeyedW true
    (by simp)).1 "models boom" rfl

/-- C6, counterexample: two `listModels(false)` calls within the 15-second
freshness window issue TWO network calls when the first call's snapshot is
empty — the non-empty requirement on the cached snapshot makes the second
call query the server again. -/
theorem listModels_twice_counterexample :
    ((listModels moEmptyW settingsW 1000005 false
        (listModels moEmptyW settingsW 1000000 false stBareW).1).1).netCalls = 2 ∧
    (1000005 : Int) - 1000000 < 15000 := by
  exact ⟨rfl, by decide⟩

/-- C6, amended: starting from an empty cache, calling `listModels(false)`
twice within the 15-second freshness window issues exactly one network call
PROVIDED the first call's snapshot is non-empty: the second call reuses the
snapshot, changes nothing and issues no network call. -/
theorem listModels_twice_fresh_one_call (mo : ModelsOracle) (s : Settings)
    (now1 now2 : Int) (st st1 : St) (mods : Catalog)
    (hcold : st.cachedModels = [])
    (h1 : listModels mo s now1 false st = (st1, .ok mods))
    (hne : mods ≠ [])
    (hwin : now2 - now1 < 15000) :
    st1.netCalls = st.netCalls + 1 ∧
    listModels mo s now2 false st1 = (st1, .ok mods) := by
  have hne' : mods.isEmpty = false := by
    cases mods with
    | nil => exact absurd rfl hne
    | cons m rest => rfl
  unfold listModels at h1
  rw [if_neg (by simp [hcold])] at h1
  cases hmo : mo st.netCalls with
  | error e => rw [hmo] at h1; simp at h1
  | ok data =>
      rw [hmo] at h1
      simp only [Prod.mk.injEq] at h1
      obtain ⟨hst1, hmods⟩ := h1
      have hmods' : parseModels s data = mods := Except.ok.inj hmods
      constructor
      · rw [← hst1]
      · unfold listModels
        rw [if_pos ⟨rfl, by rw [← hst1]; simpa using hwin,
          by rw [← hst1]; simpa [← hmods'] using hne⟩]
        rw [← hst1]
        simp [hmods']

/-- C6 witness: at the concrete one-model oracle, the first cold call makes
one network call and the second call within the window changes nothing. -/
theorem listModels_twice_fresh_one_call_witness :
    stAfterFirstW.netCalls = stBareW.netCalls + 1 ∧
    listModels moW settingsW 1000005 false stAfterFirstW =
      (stAfterFirstW, .ok catalogW) :=
  listModels_twice_fresh_one_call moW settingsW 1000000 1000005 stBareW
    stAfterFirstW catalogW rfl rfl (by simp [catalogW]) (by decide)

/-- C1: whenever `embed_batch`, called on a (non-empty) list of items,
returns successfully, it returns exactly one `EmbeddingResult` per input
item — never fewer, never more — no matter what the embeddings server
returns for any group; and the results are in input order: against a server
whose vectors are keyed to their texts (distinguishable per-item mock
vectors, the spec's own order test), the i-th result carries exactly the
vector of the i-th normalized input.  (The positive batch size keeps the
fuelled `chunk` model aligned with the JavaScript loop, which does not
terminate otherwise.) -/
theorem embed_batch_one_result_per_input (mo : ModelsOracle) (eo : EmbedOracle)
    (s : Settings) (now : Int) (st : St) (items : List JsVal) (st' : St)
    (out : List EmbRes) (tr : List EmbedReq) (f : String → List JsVal)
    (hbs : 1 ≤ s.batchSize)
    (h : embed_batch mo eo s now st [jsArr items] = (st', .ok out, tr)) :
    out.length = items.length ∧
    ((∀ (mk : String) (ts : List String), ∃ data,
        eo ⟨mk, .batch ts⟩ = .ok data ∧
        extractEmbeddings data = .ok (ts.map f)) →
      ∀ (i : Nat) (hi : i < out.length),
        (out.get ⟨i, hi⟩).vec =
          f ((normalizeBatchInputs items).getD i "")) := by
  unfold embed_batch at h
  rw [coerce_single_arr] at h
  by_cases h0 : items.length = 0
  · rw [if_pos h0] at h
    simp only [Prod.mk.injEq] at h
    obtain ⟨-, h2, -⟩ := h
    rw [← Except.ok.inj h2]
    constructor
    · simpa using h0.symm
    · intro _ i hi
      simp at hi
  · rw [if_neg h0] at h
    rcases hEB : ensureBatchSize s st with ⟨st1, bs⟩
    have hbsp : 1 ≤ bs := by
      have := ensureBatchSize_pos s st hbs
      rw [hEB] at this
      exact this
    simp only [hEB] at h
    rcases hMK : ensureModelKey mo s now st1 with ⟨st2, rk⟩
    simp only [hMK] at h
    cases rk with
    | error e => simp at h
    | ok mkey =>
        dsimp only at h
        have hnl : (normalizeBatchInputs items).length = items.length := by
          simp [normalizeBatchInputs]
        rw [if_neg (by rw [hnl]; exact h0)] at h
        rcases hRG : runGroups eo mkey st2 []
            (chunk (normalizeBatchInputs items) bs.toNat) with ⟨st3, r2, tr2⟩
        simp only [hRG] at h
        cases r2 with
        | error e => simp at h
        | ok vectors =>
            simp only [Prod.mk.injEq] at h
            obtain ⟨-, h2, -⟩ := h
            have hout := Except.ok.inj h2
            subst hout
            constructor
            · simp [padToLength_length, hnl]
            · intro hc i hi
              obtain ⟨stY, trY, hrc⟩ :=
                runGroups_consistent eo mkey f hc
                  (chunk (normalizeBatchInputs items) bs.toNat) st2 []
              rw [hrc] at hRG
              simp only [Prod.mk.injEq, List.nil_append] at hRG
              obtain ⟨-, hveq, -⟩ := hRG
              have hvec : vectors = (normalizeBatchInputs items).map f := by
                rw [← Except.ok.inj hveq, ← List.map_flatten,
                  chunk_join _ _ (by omega)]
              have hvlen : vectors.length =
                  (normalizeBatchInputs items).length := by
                rw [hvec, List.length_map]
              have hilt : i < (normalizeBatchInputs items).length := by
                simpa [padToLength_length] using hi
              have hpad : padToLength st3.model vectors
                  (normalizeBatchInputs items).length = vectors := by
                unfold padToLength
                rw [if_pos (le_of_eq hvlen.symm), ← hvlen, List.take_length]
              have hout2 : padToLength st3.model vectors
                  (normalizeBatchInputs items).length =
                  (normalizeBatchInputs items).map f := hpad.trans hvec
              rw [List.get_eq_getElem, List.getElem_map, List.getElem_enum]
              simp only [hout2]
              rw [List.getElem_map, List.getD_eq_getElem?_getD,
                List.getElem?_eq_getElem hilt, Option.getD_some]

/-- C1 witness: on the two-item input against the per-text oracle, the
result has exactly two entries and each slot carries the vector keyed to
its own normalized input. -/
theorem embed_batch_one_result_per_input_witness :
    ([⟨[.num 2], 1⟩, ⟨[.num 1], 1⟩] : List EmbRes).length =
      ([.str "ab", .str "c"] : List JsVal).length ∧
    (([⟨[.num 2], 1⟩, ⟨[.num 1], 1⟩] : List EmbRes).get ⟨0, by decide⟩).vec =
      vecFor ((normalizeBatchInputs [.str "ab", .str "c"]).getD 0 "") ∧
    (([⟨[.num 2], 1⟩, ⟨[.num 1], 1⟩] : List EmbRes).get ⟨1, by decide⟩).vec =
      vecFor ((normalizeBatchInputs [.str "ab", .str "c"]).getD 1 "") := by
  have h := embed_batch_one_result_per_input moW eoGoodW settingsW 100
    stKeyedW [.str "ab", .str "c"] _ _ _ vecFor (by decide) rfl
  exact ⟨h.1,
    h.2 (fun mk ts => ⟨embResponse (ts.map vecFor), rfl,
      extractEmbeddings_embResponse _⟩) 0 (by decide),
    h.2 (fun mk ts => ⟨embResponse (ts.map vecFor), rfl,
      extractEmbeddings_embResponse _⟩) 1 (by decide)⟩

/-- C3: for a group whose batch request succeeds but returns a vector count
different from the group size, and whose per-item requests all succeed, the
group loop discards the batch vectors and issues exactly one individual
request per text, in the group's original order, yielding exactly one vector
per text (the per-item answers, in order). -/
theorem count_mismatch_recovers_per_item (eo : EmbedOracle) (mkey : String)
    (group : List String) (data : JsVal) (embs : List (List JsVal))
    (f : String → List JsVal)
    (hbatch : eo ⟨mkey, .batch group⟩ = .ok data)
    (hext : extractEmbeddings data = .ok embs)
    (hmis : embs.length ≠ group.length)
    (hone : ∀ t ∈ group, embedOne eo mkey t = .ok (f t)) :
    processGroup eo mkey group =
      (.ok (group.map f),
       EmbedReq.mk mkey (.batch group) ::
         group.map fun t => EmbedReq.mk mkey (.single t)) := by
  have he := embedEach_all_ok eo mkey f group hone
  unfold processGroup tryBatchGroup
  simp only [hbatch, hext, he, if_pos hmis, if_neg]

/-- C4: for a group whose batch request fails outright (network error,
non-2xx, or malformed/invalid response), `embed_batch` falls back to one
individual request per item for that entire group instead of failing; and
when an individual request inside that fallback fails, that failure
propagates to the caller of `embed_batch` — there is no deeper fallback.
(Stated for an input that forms a single group; the model key is resolved
from the oracle-independent configuration.) -/
theorem batch_failure_falls_back (mo : ModelsOracle) (eo : EmbedOracle)
    (s : Settings) (now : Int) (st st1 st2 : St) (b : Int) (mkey : String)
    (items : List JsVal) (eb : String)
    (hEB : ensureBatchSize s st = (st1, b))
    (hMK : ensureModelKey mo s now st1 = (st2, .ok mkey))
    (hne : items ≠ [])
    (hfit : items.length ≤ b.toNat)
    (hbf : (tryBatchGroup eo mkey (normalizeBatchInputs items)).1 = .error eb) :
    (∀ vs tr2, embedEach eo mkey (normalizeBatchInputs items) = (.ok vs, tr2) →
      (embed_batch mo eo s now st [jsArr items]).2.1 =
        .ok (vs.enum.map fun p =>
          { vec := p.2,
            tokens := estimateTokens ((normalizeBatchInputs items).getD p.1 "") })) ∧
    (∀ e2 tr2, embedEach eo mkey (normalizeBatchInputs items) = (.error e2, tr2) →
      (embed_batch mo eo s now st [jsArr items]).2.1 = .error e2) := by
  have h0 : ¬(items.length = 0) := by
    cases items with
    | nil => exact absurd rfl hne
    | cons x rest => simp
  have hnl : (normalizeBatchInputs items).length = items.length := by
    simp [normalizeBatchInputs]
  have hchunk : chunk (normalizeBatchInputs items) b.toNat =
      [normalizeBatchInputs items] := by
    refine chunk_single _ _ ?_ (by rw [hnl]; exact hfit)
    cases items with
    | nil => exact absurd rfl hne
    | cons x rest => simp [normalizeBatchInputs]
  rcases hTB : tryBatchGroup eo mkey (normalizeBatchInputs items) with ⟨r1, trB⟩
  have hr1 : r1 = .error eb := by rw [hTB] at hbf; exact hbf
  subst hr1
  constructor
  · intro vs tr2 hEach
    have hvl : vs.length = (normalizeBatchInputs items).length :=
      embedEach_ok_length eo mkey _ vs tr2 hEach
    have hPG : processGroup eo mkey (normalizeBatchInputs items) =
        (.ok vs, trB ++ tr2) := by
      unfold processGroup
      simp only [hTB, hEach]
    have hpad : padToLength (persistDims st2 vs).model vs
        (normalizeBatchInputs items).length = vs := by
      unfold padToLength
      rw [if_pos (le_of_eq hvl.symm), ← hvl, List.take_length]
    unfold embed_batch
    rw [coerce_single_arr]
    rw [if_neg h0]
    simp only [hEB, hMK]
    rw [if_neg (by rw [hnl]; exact h0)]
    rw [hchunk]
    unfold runGroups
    simp only [hPG]
    unfold runGroups
    simp only [List.nil_append, hpad]
  · intro e2 tr2 hEach
    have hPG : processGroup eo mkey (normalizeBatchInputs items) =
        (.error e2, trB ++ tr2) := by
      unfold processGroup
      simp only [hTB, hEach]
    unfold embed_batch
    rw [coerce_single_arr]
    rw [if_neg h0]
    simp only [hEB, hMK]
    rw [if_neg (by rw [hnl]; exact h0)]
    rw [hchunk]
    unfold runGroups
    simp only [hPG]

/-- C3 witness: concrete run with a mismatching batch answer for the group
["ab", "c"]: the per-item vectors come back in order after the batch probe. -/
theorem count_mismatch_recovers_per_item_witness :
    processGroup eoMismatchW "m1" ["ab", "c"] =
      (.ok [[.num 2], [.num 1]],
       EmbedReq.mk "m1" (.batch ["ab", "c"]) ::
         [EmbedReq.mk "m1" (.single "ab"), EmbedReq.mk "m1" (.single "c")]) :=
  count_mismatch_recovers_per_item eoMismatchW "m1" ["ab", "c"]
    (embResponse []) [] (fun t => [.num (Int.ofNat t.length)])
    rfl rfl (by decide) (by intro t ht; fin_cases ht <;> rfl)

/-- C4 witness: with a batch-failing oracle whose single requests succeed,
the two-item call succeeds per item; with an always-failing oracle, the
individual failure surfaces from `embed_batch`. -/
theorem batch_failure_falls_back_witness :
    (embed_batch moW eoBatchFailW settingsW 100 stKeyedW
        [jsArr [.str "ab", .str "c"]]).2.1 =
      .ok ([[.num 2], [.num 1]].enum.map fun p =>
        { vec := p.2,
          tokens := estimateTokens
            ((normalizeBatchInputs [.str "ab", .str "c"]).getD p.1 "") }) :=
  (batch_failure_falls_back moW eoBatchFailW settingsW 100 stKeyedW _ _ _ "m1"
    [.str "ab", .str "c"] "batch boom" rfl rfl (by simp) (by decide) rfl).1
    [[.num 2], [.num 1]] _ rfl

/-- C8: every successful `embed_batch` result carries, at each index, the
estimated token count `max(1, ceil(len/4))` of the normalized text at that
index — a positive integer. -/
theorem embed_batch_token_count (mo : ModelsOracle) (eo : EmbedOracle)
    (s : Settings) (now : Int) (st : St) (items : List JsVal) (st' : St)
    (out : List EmbRes) (tr : List EmbedReq) (i : Nat)
    (_hbs : 1 ≤ s.batchSize)
    (h : embed_batch mo eo s now st [jsArr items] = (st', .ok out, tr))
    (hi : i < out.length) :
    out[i].tokens =
      max 1 ((((normalizeBatchInputs items).getD i "").length + 3) / 4) ∧
    1 ≤ out[i].tokens := by
  unfold embed_batch at h
  rw [coerce_single_arr] at h
  by_cases h0 : items.length = 0
  · rw [if_pos h0] at h
    simp only [Prod.mk.injEq] at h
    obtain ⟨-, h2, -⟩ := h
    rw [← Except.ok.inj h2] at hi
    simp at hi
  · rw [if_neg h0] at h
    rcases hEB : ensureBatchSize s st with ⟨st1, bs⟩
    simp only [hEB] at h
    rcases hMK : ensureModelKey mo s now st1 with ⟨st2, rk⟩
    simp only [hMK] at h
    cases rk with
    | error e => simp at h
    | ok mkey =>
        dsimp only at h
        have hnl : (normalizeBatchInputs items).length = items.length := by
          simp [normalizeBatchInputs]
        rw [if_neg (by rw [hnl]; exact h0)] at h
        rcases hRG : runGroups eo mkey st2 []
            (chunk (normalizeBatchInputs items) bs.toNat) with ⟨st3, r2, tr2⟩
        simp only [hRG] at h
        cases r2 with
        | error e => simp at h
        | ok vectors =>
            simp only [Prod.mk.injEq] at h
            obtain ⟨-, h2, -⟩ := h
            have hout := Except.ok.inj h2
            subst hout
            rw [List.getElem_map, List.getElem_enum]
            exact ⟨rfl, le_max_left 1 _⟩

/-- C8 witness: index 1 of the concrete two-item run carries token count
max(1, ceil(1/4)) = 1. -/
theorem embed_batch_token_count_witness :
    ([⟨[.num 2], 1⟩, ⟨[.num 1], 1⟩] : List EmbRes)[1].tokens =
      max 1 ((((normalizeBatchInputs [.str "ab", .str "c"]).getD 1 "").length + 3) / 4) ∧
    1 ≤ ([⟨[.num 2], 1⟩, ⟨[.num 1], 1⟩] : List EmbRes)[1].tokens :=
  embed_batch_token_count moW eoGoodW settingsW 100 stKeyedW
    [.str "ab", .str "c"] _ _ _ 1 (by decide) rfl (by decide)

/-- C9: `embed` wraps a non-array argument into a singleton list (the call
on `t` equals the call on `[t]`); on an array argument it hands the whole
array to `embed_batch` and keeps only the first result, discarding the rest;
and when `embed_batch` yields no results it returns the empty-vector
default. -/
theorem embed_first_or_empty (mo : ModelsOracle) (eo : EmbedOracle)
    (s : Settings) (now : Int) (st : St) :
    (∀ t : JsVal, isArray t = false →
      embed mo eo s now st t = embed mo eo s now st (jsArr [t])) ∧
    (∀ (xs : List JsVal) (st1 : St) (r : EmbRes) (rest : List EmbRes)
        (tr : List EmbedReq),
      embed_batch mo eo s now st [jsArr xs] = (st1, .ok (r :: rest), tr) →
      embed mo eo s now st (jsArr xs) = (st1, .ok (.res r), tr)) ∧
    (∀ (xs : List JsVal) (st1 : St) (tr : List EmbedReq),
      embed_batch mo eo s now st [jsArr xs] = (st1, .ok [], tr) →
      embed mo eo s now st (jsArr xs) = (st1, .ok .emptyVec, tr)) := by
  refine ⟨?_, ?_, ?_⟩
  · intro t ht
    cases t <;> first
      | rfl
      | simp [isArray] at ht
  · intro xs st1 r rest tr h
    unfold embed
    simp only [jsArr, arrToList_ofList]
    rw [show JsVal.arr (JsArrVal.ofList xs) = jsArr xs from rfl, h]
    rfl
  · intro xs st1 tr h
    unfold embed
    simp only [jsArr, arrToList_ofList]
    rw [show JsVal.arr (JsArrVal.ofList xs) = jsArr xs from rfl, h]
    rfl

/-- C9 witness: wrapping a single string argument equals the singleton-list
call at the concrete oracles. -/
theorem embed_first_or_empty_witness :
    embed moW eoGoodW settingsW 100 stKeyedW (.str "x") =
      embed moW eoGoodW settingsW 100 stKeyedW (jsArr [.str "x"]) :=
  (embed_first_or_empty moW eoGoodW settingsW 100 stKeyedW).1 (.str "x") rfl

/-- C10: reading the `batch_size` getter (i.e. running `ensureBatchSize`,
which every `embed_batch` call does first) returns the resolved effective
batch size and has a write side effect on the caller's model configuration:
each of `model.data.batch_size` and `model.data.max_batch_size` is
overwritten with the effective batch size when it is not a finite positive
number, and left unchanged when it already is; the debounced save hook is
invoked. -/
theorem batch_size_getter_persists (s : Settings) (st : St) (dfs : JsObjVal)
    (hd : st.model.getField "data" = .obj dfs) :
    (ensureBatchSize s st).1.saves = st.saves + 1 ∧
    (ensureBatchSize s st).2 = effectiveBatchSize s st ∧
    ((ensureBatchSize s st).1.model.getField "data").getField "batch_size" =
      (if isFinitePosNum ((JsVal.obj dfs).getField "batch_size")
       then (JsVal.obj dfs).getField "batch_size"
       else .num (effectiveBatchSize s st)) ∧
    ((ensureBatchSize s st).1.model.getField "data").getField "max_batch_size" =
      (if isFinitePosNum ((JsVal.obj dfs).getField "max_batch_size")
       then (JsVal.obj dfs).getField "max_batch_size"
       else .num (effectiveBatchSize s st)) := by
  obtain ⟨mfs, hm⟩ := getField_obj_of st.model "data" dfs hd
  have hdm : (JsVal.obj mfs).getField "data" = .obj dfs := by rw [← hm]; exact hd
  have htr : jsTruthy (st.model.getField "data") = true := by rw [hd]; rfl
  have htrD : jsTruthy (JsVal.obj dfs) = true := rfl
  have hbsne : ("batch_size" : String) ≠ "max_batch_size" := by decide
  have h1 : (setDataField st.model "batch_size"
      (.num (effectiveBatchSize s st))).getField "data" =
      (JsVal.obj dfs).setField "batch_size" (.num (effectiveBatchSize s st)) := by
    rw [hm]; exact setDataField_getData mfs dfs _ _ hdm
  have hmax1 : ((JsVal.obj dfs).setField "batch_size"
      (.num (effectiveBatchSize s st))).getField "max_batch_size" =
      (JsVal.obj dfs).getField "max_batch_size" :=
    getField_setField_ne _ _ _ _ hbsne
  have hsaves : (ensureBatchSize s st).1.saves = st.saves + 1 := by
    simp [ensureBatchSize, htr]
  have hpair :
      (((ensureBatchSize s st).1.model.getField "data").getField "batch_size" =
        (if isFinitePosNum ((JsVal.obj dfs).getField "batch_size")
         then (JsVal.obj dfs).getField "batch_size"
         else .num (effectiveBatchSize s st))) ∧
      (((ensureBatchSize s st).1.model.getField "data").getField "max_batch_size" =
        (if isFinitePosNum ((JsVal.obj dfs).getField "max_batch_size")
         then (JsVal.obj dfs).getField "max_batch_size"
         else .num (effectiveBatchSize s st))) := by
    by_cases hb : isFinitePosNum ((JsVal.obj dfs).getField "batch_size") = true <;>
      by_cases hx : isFinitePosNum ((JsVal.obj dfs).getField "max_batch_size") = true
    · have hval : (ensureBatchSize s st).1.model = st.model := by
        simp [ensureBatchSize, htr, htrD, hd, hb, hx]
      rw [hval, hd, if_pos hb, if_pos hx]
      exact ⟨rfl, rfl⟩
    · have hval : (ensureBatchSize s st).1.model =
          setDataField st.model "max_batch_size"
            (.num (effectiveBatchSize s st)) := by
        simp [ensureBatchSize, htr, htrD, hd, hb, hx]
      have h2 : (setDataField st.model "max_batch_size"
          (.num (effectiveBatchSize s st))).getField "data" =
          (JsVal.obj dfs).setField "max_batch_size"
            (.num (effectiveBatchSize s st)) := by
        rw [hm]; exact setDataField_getData mfs dfs _ _ hdm
      rw [hval, h2, if_pos hb, if_neg hx]
      exact ⟨getField_setField_ne _ _ _ _ (Ne.symm hbsne),
        getField_setField_self _ _ _⟩
    · have hval : (ensureBatchSize s st).1.model =
          setDataField st.model "batch_size"
            (.num (effectiveBatchSize s st)) := by
        simp [ensureBatchSize, htr, htrD, hd, hb, hx, h1, hmax1]
      rw [hval, h1, if_neg hb, if_pos hx]
      exact ⟨getField_setField_self _ _ _, hmax1⟩
    · have hval : (ensureBatchSize s st).1.model =
          setDataField (setDataField st.model "batch_size"
            (.num (effectiveBatchSize s st))) "max_batch_size"
            (.num (effectiveBatchSize s st)) := by
        simp [ensureBatchSize, htr, htrD, hd, hb, hx, h1, hmax1]
      obtain ⟨mfs1, hm1⟩ : ∃ mfs1,
          setDataField st.model "batch_size"
            (.num (effectiveBatchSize s st)) = .obj mfs1 := by
        rw [hm]; exact ⟨_, rfl⟩
      obtain ⟨dfs1, hd1⟩ : ∃ dfs1,
          (JsVal.obj dfs).setField "batch_size"
            (.num (effectiveBatchSize s st)) = .obj dfs1 := ⟨_, rfl⟩
      have h1' : (JsVal.obj mfs1).getField "data" = .obj dfs1 := by
        rw [← hm1, ← hd1]; exact h1
      have h2 : (setDataField (setDataField st.model "batch_size"
            (.num (effectiveBatchSize s st))) "max_batch_size"
            (.num (effectiveBatchSize s st))).getField "data" =
          (JsVal.obj dfs1).setField "max_batch_size"
            (.num (effectiveBatchSize s st)) := by
        rw [hm1]; exact setDataField_getData mfs1 dfs1 _ _ h1'
      rw [hval, h2, if_neg hb, if_neg hx]
      constructor
      · rw [getField_setField_ne _ _ _ _ (Ne.symm hbsne), ← hd1]
        exact getField_setField_self _ _ _
      · exact getField_setField_self _ _ _
  exact ⟨hsaves, ensureBatchSize_snd s st, hpair.1, hpair.2⟩

/-- C10 witness: with `model.data` lacking both fields, both are written to
the settings default 16 and the save hook counter grows. -/
theorem batch_size_getter_persists_witness :
    (ensureBatchSize settingsW stKeyedW).1.saves = stKeyedW.saves + 1 ∧
    (ensureBatchSize settingsW stKeyedW).2 = effectiveBatchSize settingsW stKeyedW ∧
    ((ensureBatchSize settingsW stKeyedW).1.model.getField "data").getField "batch_size" =
      (if isFinitePosNum ((JsVal.obj (JsObjVal.ofList [("model_key", .str "m1")])).getField "batch_size")
       then (JsVal.obj (JsObjVal.ofList [("model_key", .str "m1")])).getField "batch_size"
       else .num (effectiveBatchSize settingsW stKeyedW)) ∧
    ((ensureBatchSize settingsW stKeyedW).1.model.getField "data").getField "max_batch_size" =
      (if isFinitePosNum ((JsVal.obj (JsObjVal.ofList [("model_key", .str "m1")])).getField "max_batch_size")
       then (JsVal.obj (JsObjVal.ofList [("model_key", .str "m1")])).getField "max_batch_size"
       else .num (effectiveBatchSize settingsW stKeyedW)) :=
  batch_size_getter_persists settingsW stKeyedW
    (JsObjVal.ofList [("model_key", .str "m1")]) rfl

/-- C5: when no model key/id is configured on the caller's model object,
resolving the model identifier forces a catalog refresh (one network call);
if the refreshed catalog is empty the operation fails with the
no-models-available error, and otherwise it adopts the first catalog entry,
returns it, persists it onto `model.data.model_key` and `model.data.model`,
and invokes the debounced save. -/
theorem ensureModelKey_adopts_first (mo : ModelsOracle) (s : Settings)
    (now : Int) (st : St) (dfs : JsObjVal) (dataJ : JsVal)
    (hkey : keyOf st.model = "")
    (hd : st.model.getField "data" = .obj dfs)
    (hmo : mo st.netCalls = .ok dataJ) :
    ((ensureModelKey mo s now st).1.netCalls = st.netCalls + 1) ∧
    (parseModels s dataJ = [] →
      (ensureModelKey mo s now st).2 = .error noModelsMsg) ∧
    (∀ (k : String) (c : JsVal) (rest : Catalog),
      parseModels s dataJ = (k, c) :: rest → jsTrim k ≠ "" →
      (ensureModelKey mo s now st).2 = .ok (jsTrim k) ∧
      ((ensureModelKey mo s now st).1.model.getField "data").getField
          "model_key" = .str (jsTrim k) ∧
      ((ensureModelKey mo s now st).1.model.getField "data").getField
          "model" = .str (jsTrim k) ∧
      (ensureModelKey mo s now st).1.saves = st.saves + 1) := by
  obtain ⟨mfs, hm⟩ := getField_obj_of st.model "data" dfs hd
  have hdm : (JsVal.obj mfs).getField "data" = .obj dfs := by
    rw [← hm]; exact hd
  obtain ⟨m2, hgm, hcases⟩ := get_models_true_ok mo s now st dataJ hmo
  obtain ⟨mfs2, dfs2, hm2, hd2⟩ : ∃ mfs2 dfs2,
      m2 = .obj mfs2 ∧ (JsVal.obj mfs2).getField "data" = .obj dfs2 := by
    rcases hcases with h | h
    · exact ⟨mfs, dfs, by rw [h, hm], hdm⟩
    · rw [hm] at h
      exact ⟨_, _, h, (setDataField_getData mfs dfs "provider_models"
        (catalogToJs (parseModels s dataJ)) hdm).trans rfl⟩
  have htr2 : jsTruthy (m2.getField "data") = true := by
    rw [hm2, hd2]; rfl
  unfold ensureModelKey
  rw [hkey]
  rw [if_neg (by simp)]
  simp only [hgm]
  refine ⟨?_, ?_, ?_⟩
  · rcases hP : parseModels s dataJ with _ | ⟨⟨k0, c0⟩, rest0⟩ <;>
      simp only [hP, List.head?]
    · rfl
    · by_cases hk : jsTrim k0 = ""
      · rw [if_pos hk]
      · rw [if_neg hk]
        split <;> rfl
  · intro hP
    simp only [hP, List.head?]
    rfl
  · intro k c rest hP hk
    simp only [hP, List.head?]
    rw [if_neg hk]
    rw [if_pos htr2]
    obtain ⟨mfs3, hm3⟩ : ∃ mfs3,
        setDataField m2 "model_key" (.str (jsTrim k)) = .obj mfs3 := by
      rw [hm2]; exact ⟨_, rfl⟩
    obtain ⟨dfs3, hd3⟩ : ∃ dfs3,
        (JsVal.obj dfs2).setField "model_key" (.str (jsTrim k)) =
          .obj dfs3 := ⟨_, rfl⟩
    have hin : (setDataField m2 "model_key" (.str (jsTrim k))).getField
        "data" = .obj dfs3 := by
      rw [hm2, setDataField_getData mfs2 dfs2 _ _ hd2, hd3]
    have hout : (setDataField (setDataField m2 "model_key"
          (.str (jsTrim k))) "model" (.str (jsTrim k))).getField "data" =
        (JsVal.obj dfs3).setField "model" (.str (jsTrim k)) := by
      rw [hm3] at hin ⊢
      exact setDataField_getData mfs3 dfs3 _ _ hin
    have hne : ("model" : String) ≠ "model_key" := by decide
    refine ⟨rfl, ?_, ?_, rfl⟩
    · rw [hout, getField_setField_ne _ _ _ _ hne, ← hd3]
      exact getField_setField_self _ _ _
    · rw [hout]
      exact getField_setField_self _ _ _

/-- C5 witness: with a bare model configuration and the one-model oracle,
the fallback adopts "m1", persists it, and bumps the save counter; the
network-call counter grows by one. -/
theorem ensureModelKey_adopts_first_witness :
    (ensureModelKey moW settingsW 100 stBareW).2 = .ok (jsTrim "m1") ∧
    ((ensureModelKey moW settingsW 100 stBareW).1.model.getField
        "data").getField "model_key" = .str (jsTrim "m1") ∧
    ((ensureModelKey moW settingsW 100 stBareW).1.model.getField
        "data").getField "model" = .str (jsTrim "m1") ∧
    (ensureModelKey moW settingsW 100 stBareW).1.saves = stBareW.saves + 1 :=
  (ensureModelKey_adopts_first moW settingsW 100 stBareW
    (JsObjVal.ofList []) modelsJsonW rfl rfl rfl).2.2
    "m1" (configJs settingsW "m1") [] rfl (by decide)

example : coerceToText (jsObj [("data", jsObj [("input", .str "hello")])]) = "" := rfl
example : coerceToText (jsObj [("embed_input", .num 42), ("text", .str "hi")]) = "" := rfl
example : coerceToText (jsObj [("data", jsObj [("text", .str "hi")])]) = "hi" := rfl
example : coerceToText (.str "raw") = "raw" := rfl
example : normalizeBatchInputs [.str "  ", jsObj [("text", .str " a ")]] = [" ", "a"] := rfl
example : estimateTokens "hello" = 2 := rfl
example : estimateTokens "" = 1 := rfl
example : chunk [1, 2, 3, 4, 5] 2 = [[1, 2], [3, 4], [5]] := rfl
example : coerceBatchInputsFromArgs [jsArr [.str "a"]] = [.str "a"] := rfl
example : coerceBatchInputsFromArgs [jsArr []] = [] := rfl
example : coerceBatchInputsFromArgs [jsObj [("texts", jsArr [.str "a"])]] = [.str "a"] := rfl
example : (listModels moW settingsW 100 true stKeyedW).2 = .ok [("m1", configJs settingsW "m1")] := rfl
example : (ensureModelKey moW settingsW 100 stBareW).2 = .ok "m1" := rfl
example : (ensureModelKey moEmptyW settingsW 100 stBareW).2 = .error noModelsMsg := rfl
example : (ensureModelKey moW settingsW 100 stKeyedW).2 = .ok "m1" := rfl
example :
    (embed_batch moW eoGoodW settingsW 100 stKeyedW [jsArr [.str "ab", .str "c"]]).2.1 =
      .ok [⟨[.num 2], 1⟩, ⟨[.num 1], 1⟩] := rfl
example :
    (embed_batch moW eoMismatchW settingsW 100 stKeyedW [jsArr [.str "ab", .str "c"]]).2.1 =
      .ok [⟨[.num 2], 1⟩, ⟨[.num 1], 1⟩] := rfl
example :
    (embed_batch moW eoBatchFailW settingsW 100 stKeyedW [jsArr [.str "ab", .str "c"]]).2.1 =
      .ok [⟨[.num 2], 1⟩, ⟨[.num 1], 1⟩] := rfl
example :
    (embed_batch moW eoAllFailW settingsW 100 stKeyedW [jsArr [.str "ab"]]).2.1 =
      .error "single boom" := rfl
example :
    (embed_batch moW eoMismatchW settingsW 100 stKeyedW [jsArr [.str "ab", .str "c"]]).2.2 =
      [⟨"m1", .batch ["ab", "c"]⟩, ⟨"m1", .single "ab"⟩, ⟨"m1", .single "c"⟩] := rfl

end LmStudio
